import Mathlib

/-!
Verification development for the jizzle compiler front end: a shallow
embedding of the source buffer (src/source.rs), lexer (src/lexer.rs),
recursive-descent parser (src/ast.rs), code generator (src/backend.rs) and
the diagnostic formatter (src/error.rs), together with theorems about the
properties stated for them.

Modelling conventions:
  - Rust `u64` values are Lean `Nat`; the one place where overflow matters
    (`str::parse::<u64>().unwrap()` in `lex_number`) is modelled by an
    explicit comparison against `U64_MAX`, with the `unwrap` of the failed
    parse mapped to the `panicked` outcome.
  - Fallible Rust code returning `Result` is modelled with the `Outcome`
    type below; `Outcome.panicked` marks the places where the Rust source
    aborts the process (`unwrap` on `None`/`Err`, `unreachable!`).
  - Rust `while` loops that advance a cursor over a maximal run of
    characters (`skip_whitespace`, the digit run in `lex_number`, the
    identifier run in `lex_ident`) are modelled with `List.takeWhile` on
    the remaining characters: the loop stops at the first character failing
    the test, so the new cursor offset is the old one plus the length of
    the maximal satisfying run.
  - The lexer loop in `lex_file` and the parser loops in `ast.rs` are
    modelled with an explicit fuel parameter for termination; every
    iteration of each loop consumes at least one character / token, so the
    fuel chosen by the wrappers (`lex_file`, `parse_expr`, `parse`) is
    never exhausted.
  - Rust character classifiers: `is_ascii_digit` is `Char.isDigit`,
    `is_ascii_alphabetic` is `Char.isAlpha`; the Unicode classifiers
    `is_alphabetic`, `is_alphanumeric` and `is_whitespace` are modelled by
    `Char.isAlpha`, `Char.isAlphanum` and `Char.isWhitespace`, which agree
    with them on the ASCII range.
-/

namespace Jizzle

/-- Outcome of running a piece of Rust code that can return a value,
return an error, or abort the process (`unwrap` on nothing, `unreachable!`,
or a panic inside a library call). -/
inductive Outcome (ε α : Type) where
  | ok (a : α)
  | err (e : ε)
  | panicked
deriving DecidableEq

/-- Sequencing of outcomes: errors and aborts propagate (the `?` operator
and explicit `match`es in the source). -/
def Outcome.bind {ε α β : Type} : Outcome ε α → (α → Outcome ε β) → Outcome ε β
  | .ok a, f => f a
  | .err e, _ => .err e
  | .panicked, _ => .panicked

/-! ## Source buffer (src/source.rs) -/

/-- `Source` from src/source.rs: the program text as an indexable sequence
of characters plus a cursor offset.  The `path` field models the
`src.path()` accessor the lexer uses for the `file` component of its
errors; `Source::new` in source.rs stores no path, so it is `none` for
every buffer built by `Source.new`. -/
structure Source where
  src : List Char
  offset : Nat
  path : Option String
deriving DecidableEq

/-- `Source::new`: fresh buffer with the cursor at offset 0. -/
def Source.new (s : String) : Source := ⟨s.data, 0, none⟩

/-- `Source::finished`: true when the cursor is at or past the end. -/
def Source.finished (s : Source) : Bool := s.src.length ≤ s.offset

/-- `Source::peek`: the character under the cursor, or none at the end. -/
def Source.peek (s : Source) : Option Char := s.src[s.offset]?

/-- `Source::next`: returns the character under the cursor and moves the
cursor forward by one.  Note that the offset is incremented
unconditionally, also when the cursor is already past the end. -/
def Source.next (s : Source) : Option Char × Source :=
  (s.src[s.offset]?, { s with offset := s.offset + 1 })

/-- `Source::skip_whitespace`: `while peek().is_some_and(is_whitespace) { next() }`,
i.e. the cursor advances past the maximal whitespace run at the cursor. -/
def Source.skip_whitespace (s : Source) : Source :=
  { s with offset := s.offset + ((s.src.drop s.offset).takeWhile Char.isWhitespace).length }

/-- `Source::get_position`: 1-based (line, column) of `offset`, computed by
counting newline characters strictly before `offset` and the characters
since the last newline (scanning the prefix reversed). -/
def Source.get_position (s : Source) (offset : Nat) : Nat × Nat :=
  (((s.src.take offset).filter fun c => c == '\n').length + 1,
   ((s.src.take offset).reverse.takeWhile fun c => c != '\n').length + 1)

/-! ## Lexer (src/lexer.rs) -/

/-- `Token` from src/lexer.rs. -/
inductive Token where
  | Number (value : Nat) (here : Nat) (len : Nat)
  | Plus (here : Nat)
  | Minus (here : Nat)
  | Star (here : Nat)
  | OpenParen (here : Nat)
  | CloseParen (here : Nat)
  | OpenCurly (here : Nat)
  | CloseCurly (here : Nat)
  | Return (here : Nat)
  | Var (here : Nat)
  | Semicolon (here : Nat)
  | Equal (here : Nat)
  | Ident (value : String) (here : Nat)
deriving DecidableEq

/-- `NumberLexError` from src/lexer.rs: a digit run immediately followed by
a letter.  Its only payload is the optional file name and the 1-based
line and column of the start of the run. -/
inductive NumberLexError where
  | Letter (file : Option String) (line_number : Nat) (column_number : Nat)
deriving DecidableEq

/-- `LexerError` from src/lexer.rs. -/
inductive LexerError where
  | UnexpectedChar (file : Option String) (line_number : Nat) (column_number : Nat) (c : Char)
  | UnexpectedEOF (file : Option String) (line_number : Nat) (column_number : Nat)
  | Number (e : NumberLexError)
deriving DecidableEq

/-- The numeric value of a digit run, as computed by `str::parse::<u64>`
on a string of ASCII digits (ignoring overflow, which is handled at the
call site in `lex_number`). -/
def digitsToNat (l : List Char) : Nat :=
  l.foldl (fun acc c => 10 * acc + (c.toNat - '0'.toNat)) 0

/-- Largest value representable in a `u64`; `str::parse::<u64>` fails
beyond it, and `lex_number` unwraps that failure. -/
def U64_MAX : Nat := 18446744073709551615

/-- `lex_ident` from src/lexer.rs: records the start offset, consumes one
character unconditionally, then the maximal run of alphanumeric-or-`_`
characters; returns the advanced buffer, the start offset, the length, and
the scanned text.  (The Rust code extracts the text with byte indices into
`as_string()`, which coincide with character indices on ASCII input.) -/
def lex_ident (src : Source) : Source × Nat × Nat × String :=
  let begin_ := src.offset
  let s1 := (src.next).2
  let run := (s1.src.drop s1.offset).takeWhile fun c => c.isAlphanum || c = '_'
  let s2 : Source := ⟨src.src, s1.offset + run.length, src.path⟩
  (s2, begin_, s2.offset - begin_, String.mk ((src.src.drop begin_).take (s2.offset - begin_)))

/-- `lex_number` from src/lexer.rs: consumes the maximal digit run; if the
following character is an ASCII letter, fails with a `Letter` error
carrying the position of the start of the run; otherwise parses the run as
a `u64` — `parse().unwrap()` aborts the process when the value exceeds
`U64_MAX`. -/
def lex_number (src : Source) : Outcome NumberLexError (Source × Token) :=
  let begin_ := src.offset
  let run := (src.src.drop begin_).takeWhile Char.isDigit
  let s1 : Source := ⟨src.src, begin_ + run.length, src.path⟩
  let value := digitsToNat run
  let mkTok : Outcome NumberLexError (Source × Token) :=
    if value ≤ U64_MAX then .ok (s1, Token.Number value begin_ run.length) else .panicked
  match s1.peek with
  | some c =>
    if c.isAlpha then
      let pos := src.get_position begin_
      .err (.Letter src.path pos.1 pos.2)
    else mkTok
  | none => mkTok

/-- Push a token in front of the rest of the lexer's output (the
`tokens.push(...)` accumulation in `lex_file`), propagating failures. -/
def consTok (t : Token) : Outcome LexerError (List Token) → Outcome LexerError (List Token)
  | .ok ts => .ok (t :: ts)
  | .err e => .err e
  | .panicked => .panicked

/-- One iteration of the `while !src.finished()` loop of `lex_file` from
src/lexer.rs, after the whitespace skip: dispatch on the next character
exactly as the `match` in the source, continuing with `recur` (the rest of
the loop) on the advanced buffer. -/
def lex_iter (recur : Source → Outcome LexerError (List Token)) (s : Source) :
    Outcome LexerError (List Token) :=
  match s.peek with
  | some c =>
    if c.isDigit then
      match lex_number s with
      | .ok (s1, t) => consTok t (recur s1)
      | .err e => .err (.Number e)
      | .panicked => .panicked
    else if c = '+' then consTok (.Plus s.offset) (recur (s.next).2)
    else if c = '-' then consTok (.Minus s.offset) (recur (s.next).2)
    else if c = '*' then consTok (.Star s.offset) (recur (s.next).2)
    else if c = '=' then consTok (.Equal s.offset) (recur (s.next).2)
    else if c = ';' then consTok (.Semicolon s.offset) (recur (s.next).2)
    else if c = '(' then consTok (.OpenParen s.offset) (recur (s.next).2)
    else if c = ')' then consTok (.CloseParen s.offset) (recur (s.next).2)
    else if c = '{' then consTok (.OpenCurly s.offset) (recur (s.next).2)
    else if c = '}' then consTok (.CloseCurly s.offset) (recur (s.next).2)
    else if c.isAlpha || c = '_' then
      consTok
        (if (lex_ident s).2.2.2 = "return" then Token.Return (lex_ident s).2.1
         else if (lex_ident s).2.2.2 = "var" then Token.Var (lex_ident s).2.1
         else Token.Ident (lex_ident s).2.2.2 (lex_ident s).2.1)
        (recur (lex_ident s).1)
    else
      .err (.UnexpectedChar s.path (s.get_position s.offset).1 (s.get_position s.offset).2 c)
  | none =>
    .err (.UnexpectedEOF s.path (s.get_position s.offset).1 (s.get_position s.offset).2)

/-- The `while !src.finished()` loop of `lex_file` from src/lexer.rs, with
an explicit fuel parameter for termination.  Each iteration skips
whitespace, then runs `lex_iter`.  Fuel exhaustion is modelled as
`panicked`; it is unreachable from the `lex_file` wrapper because every
iteration advances the cursor by at least one character. -/
def lex_fileF : Nat → Source → Outcome LexerError (List Token)
  | 0, _ => .panicked
  | f + 1, src =>
    if src.finished then .ok []
    else lex_iter (lex_fileF f) src.skip_whitespace

/-- `lex_file` from src/lexer.rs: run the lexer loop on the whole buffer.
The fuel bound `length - offset + 1` is sufficient because every loop
iteration consumes at least one character. -/
def lex_file (src : Source) : Outcome LexerError (List Token) :=
  lex_fileF (src.src.length - src.offset + 1) src

/-! ## AST and parser (src/ast.rs) -/

/-- `Expression` from src/ast.rs. -/
inductive Expression where
  | Number (value : Nat) (here : Nat) (len : Nat)
  | Variable (name : String) (here : Nat)
  | Binary (left : Expression) (op : Token) (right : Expression)
deriving DecidableEq

/-- `Statement` from src/ast.rs. -/
inductive Statement where
  | Return (e : Expression)
  | DefineVar (name : String) (value : Expression)
deriving DecidableEq

/-- `ASTError` from src/ast.rs. -/
inductive ASTError where
  | UnexpectedEOF
  | UnexpectedToken (got : Token) (expected : Token)
deriving DecidableEq

mutual

/-- `parse_primary` from src/ast.rs (fuelled): a number, an identifier, or
a parenthesized expression. -/
def parse_primaryF : Nat → List Token → Except ASTError (List Token × Expression)
  | 0, _ => .error .UnexpectedEOF
  | f + 1, toks =>
    match toks with
    | .Number v h l :: rest => .ok (rest, .Number v h l)
    | .Ident name h :: rest => .ok (rest, .Variable name h)
    | .OpenParen _ :: rest =>
      match parse_exprF f rest with
      | .error e => .error e
      | .ok (ts, e) =>
        match ts with
        | .CloseParen _ :: ts2 => .ok (ts2, e)
        | t :: _ => .error (.UnexpectedToken t (.CloseParen 0))
        | [] => .error .UnexpectedEOF
    | t :: _ => .error (.UnexpectedToken t (.OpenParen 0))
    | [] => .error .UnexpectedEOF

/-- `parse_mult` from src/ast.rs (fuelled): a primary followed by the
`'*' primary` loop. -/
def parse_multF : Nat → List Token → Except ASTError (List Token × Expression)
  | 0, _ => .error .UnexpectedEOF
  | f + 1, toks =>
    match parse_primaryF f toks with
    | .error e => .error e
    | .ok (ts, left) => parse_mult_loopF f left ts

/-- The `loop` inside `parse_mult`: as long as the next token is `*`,
consume it, parse another primary, and extend `left` left-associatively. -/
def parse_mult_loopF : Nat → Expression → List Token → Except ASTError (List Token × Expression)
  | 0, _, _ => .error .UnexpectedEOF
  | f + 1, left, toks =>
    match toks with
    | .Star h :: rest =>
      match parse_primaryF f rest with
      | .error e => .error e
      | .ok (ts, right) => parse_mult_loopF f (.Binary left (.Star h) right) ts
    | _ => .ok (toks, left)

/-- `parse_expr` from src/ast.rs (fuelled): a mult-level expression
followed by the `('+' | '-') term` loop. -/
def parse_exprF : Nat → List Token → Except ASTError (List Token × Expression)
  | 0, _ => .error .UnexpectedEOF
  | f + 1, toks =>
    match parse_multF f toks with
    | .error e => .error e
    | .ok (ts, left) => parse_expr_loopF f left ts

/-- The `loop` inside `parse_expr`: as long as the next token is `+` or
`-`, consume it, parse another mult-level term, and extend `left`
left-associatively. -/
def parse_expr_loopF : Nat → Expression → List Token → Except ASTError (List Token × Expression)
  | 0, _, _ => .error .UnexpectedEOF
  | f + 1, left, toks =>
    match toks with
    | .Plus h :: rest =>
      match parse_multF f rest with
      | .error e => .error e
      | .ok (ts, right) => parse_expr_loopF f (.Binary left (.Plus h) right) ts
    | .Minus h :: rest =>
      match parse_multF f rest with
      | .error e => .error e
      | .ok (ts, right) => parse_expr_loopF f (.Binary left (.Minus h) right) ts
    | _ => .ok (toks, left)

end

/-- `parse_expr` from src/ast.rs.  The fuel `3 * length + 3` covers the
deepest possible chain of mutual calls: every token consumed pays for at
most three nested calls. -/
def parse_expr (toks : List Token) : Except ASTError (List Token × Expression) :=
  parse_exprF (3 * toks.length + 3) toks

/-- `parse_mult` from src/ast.rs. -/
def parse_mult (toks : List Token) : Except ASTError (List Token × Expression) :=
  parse_multF (3 * toks.length + 3) toks

/-- `parse_primary` from src/ast.rs. -/
def parse_primary (toks : List Token) : Except ASTError (List Token × Expression) :=
  parse_primaryF (3 * toks.length + 3) toks

/-- The `while !tokens.is_empty()` loop of `parse` from src/ast.rs
(fuelled): dispatch on the first token; `return` and `var` statements
consume their tokens through `parse_expr` and a trailing semicolon. -/
def parseF : Nat → List Token → Except ASTError (List Statement)
  | 0, _ => .error .UnexpectedEOF
  | f + 1, toks =>
    if toks.isEmpty then .ok []
    else
      match toks with
      | Token.Return _ :: rest =>
        match parse_expr rest with
        | .error e => .error e
        | .ok (ts, e) =>
          match ts with
          | Token.Semicolon _ :: ts2 =>
            match parseF f ts2 with
            | .ok stmts => .ok (Statement.Return e :: stmts)
            | .error er => .error er
          | t :: _ => .error (.UnexpectedToken t (.Semicolon 0))
          | [] => .error .UnexpectedEOF
      | Token.Var _ :: rest =>
        match rest with
        | Token.Ident name _ :: rest2 =>
          match rest2 with
          | Token.Equal _ :: rest3 =>
            match parse_expr rest3 with
            | .error e => .error e
            | .ok (ts, value) =>
              match ts with
              | Token.Semicolon _ :: ts2 =>
                match parseF f ts2 with
                | .ok stmts => .ok (Statement.DefineVar name value :: stmts)
                | .error er => .error er
              | t :: _ => .error (.UnexpectedToken t (.Semicolon 0))
              | [] => .error .UnexpectedEOF
          | t :: _ => .error (.UnexpectedToken t (.Equal 0))
          | [] => .error .UnexpectedEOF
        | t :: _ => .error (.UnexpectedToken t (.Ident "any" 0))
        | [] => .error .UnexpectedEOF
      | t :: _ => .error (.UnexpectedToken t (.Return 0))
      | [] => .error .UnexpectedEOF

/-- `parse` from src/ast.rs.  The fuel `length + 1` is sufficient because
every statement consumes at least one token. -/
def parse (toks : List Token) : Except ASTError (List Statement) :=
  parseF (toks.length + 1) toks

/-! ## Code generator (src/backend.rs) -/

/-- `inkwell::builder::BuilderError`: the IR builder's error type.  The
translation never produces one (the builder calls made by backend.rs fail
only on builder misuse), so the type is empty in the model. -/
inductive BuilderError where
deriving DecidableEq

/-- IR values produced by the builder calls in backend.rs: integer
constants, loads from stack slots, and the three arithmetic instructions. -/
inductive IRValue where
  | constInt (v : Nat)
  | load (ptr : Nat)
  | add (a b : IRValue)
  | sub (a b : IRValue)
  | mul (a b : IRValue)
deriving DecidableEq

/-- Instructions emitted into the function body by backend.rs. -/
inductive Instr where
  | alloca (ptr : Nat)
  | store (v : IRValue) (ptr : Nat)
  | ret (v : IRValue)
deriving DecidableEq

/-- The `Backend` struct from src/backend.rs: the variable environment
(the `variables` field, a `HashMap<String, PointerValue>` modelled as an
association list where the most recent insertion wins — `vars` here
because `variables` is a reserved word), a counter producing distinct
stack-slot handles for `build_alloca`, and the instructions emitted so
far. -/
structure Backend where
  vars : List (String × Nat)
  next_ptr : Nat
  instrs : List Instr
deriving DecidableEq

/-- `Backend::eval_expression` from src/backend.rs: structural recursion
over the expression.  A `Variable` is looked up in the environment —
`self.variables.get(&name).unwrap()` aborts the process when the name is
absent.  A `Binary` node evaluates left before right and dispatches on the
operator token; a non-operator token hits `unreachable!()`. -/
def Backend.eval_expression (b : Backend) : Expression → Outcome BuilderError IRValue
  | .Variable name _ =>
    match b.vars.lookup name with
    | some ptr => .ok (.load ptr)
    | none => .panicked
  | .Number v _ _ => .ok (.constInt v)
  | .Binary l op r =>
    (b.eval_expression l).bind fun lv =>
      (b.eval_expression r).bind fun rv =>
        match op with
        | .Plus _ => .ok (.add lv rv)
        | .Minus _ => .ok (.sub lv rv)
        | .Star _ => .ok (.mul lv rv)
        | _ => .panicked

/-- `Backend::define_variable` from src/backend.rs: allocate a fresh stack
slot, evaluate the initializer, store it, and record the name-to-slot
mapping (overwriting any previous mapping for the same name). -/
def Backend.define_variable (b : Backend) (name : String) (value : Expression) :
    Outcome BuilderError Backend :=
  let ptr := b.next_ptr
  let b1 : Backend := ⟨b.vars, b.next_ptr + 1, b.instrs ++ [.alloca ptr]⟩
  (b1.eval_expression value).bind fun v =>
    .ok ⟨(name, ptr) :: b1.vars, b1.next_ptr, b1.instrs ++ [.store v ptr]⟩

/-- The statement loop of `compile` from src/backend.rs: translate the
statements in order.  (Module verification and native-object emission that
follow the loop are external and not modelled.) -/
def compile_statements (b : Backend) : List Statement → Outcome BuilderError Backend
  | [] => .ok b
  | .Return v :: rest =>
    (b.eval_expression v).bind fun val =>
      compile_statements ⟨b.vars, b.next_ptr, b.instrs ++ [.ret val]⟩ rest
  | .DefineVar name value :: rest =>
    (b.define_variable name value).bind fun b2 => compile_statements b2 rest

/-- The `Backend` at the start of `compile`: empty environment, no
allocations, no instructions. -/
def Backend.init : Backend := ⟨[], 0, []⟩

/-! ## Diagnostic formatter (src/error.rs) -/

/-- A run of `n` copies of a character (the fill of a Rust format
specifier). -/
def repeatChar (c : Char) (n : Nat) : String := String.mk (List.replicate n c)

/-- `display_error` from src/error.rs: renders an `Error at line L, column C:`
header, the offending source line indented by four spaces, a caret line
(`"^"` right-aligned to width `column + 4`, then `len` fill carets), and
the message.  Each `writeln!` appends a newline.  The function is total:
it cannot fail. -/
def display_error (line : String) (pos : Nat × Nat) (len : Nat) (message : String) : String :=
  "Error at line " ++ toString pos.1 ++ ", column " ++ toString pos.2 ++ ":\n" ++
  ("    " ++ line ++ "\n") ++
  (repeatChar ' ' (pos.2 + 4 - 1) ++ "^" ++ repeatChar '^' len ++ "\n") ++
  (message ++ "\n")

/-! ## Helper definitions and lemmas for the theorems below -/

/-- One `('+' | '-') NUMBER` step of an addition-level chain: the operator
choice (`isPlus`), the operator's offset, and the number's value, offset
and length. -/
structure AddTerm where
  isPlus : Bool
  opAt : Nat
  value : Nat
  valAt : Nat
  valLen : Nat

/-- The operator token of an `AddTerm`. -/
def addOpToken (t : AddTerm) : Token :=
  if t.isPlus then .Plus t.opAt else .Minus t.opAt

/-- The token sequence `op₁ n₁ op₂ n₂ …` of an addition-level chain. -/
def addTermToks : List AddTerm → List Token
  | [] => []
  | t :: rest => addOpToken t :: Token.Number t.value t.valAt t.valLen :: addTermToks rest

/-- Left fold of an addition-level chain into a `Binary` spine, as the
spec's associativity law describes: each step wraps the accumulator as the
left operand. -/
def addFold (init : Expression) (ts : List AddTerm) : Expression :=
  ts.foldl (fun acc t => .Binary acc (addOpToken t) (.Number t.value t.valAt t.valLen)) init

/-- Whether a token sequence starts with a `*` token. -/
def headIsStar : List Token → Bool
  | .Star _ :: _ => true
  | _ => false

theorem addTermToks_length (ts : List AddTerm) : (addTermToks ts).length = 2 * ts.length := by
  induction ts with
  | nil => rfl
  | cons t rest ih => simp [addTermToks, ih]; omega

theorem headIsStar_addTermToks (ts : List AddTerm) : headIsStar (addTermToks ts) = false := by
  cases ts with
  | nil => rfl
  | cons t rest => cases hb : t.isPlus <;> simp [addTermToks, addOpToken, hb, headIsStar]

/-- `parse_mult` on a number followed by anything but `*` consumes exactly
the number. -/
theorem parse_mult_num (f v h l : Nat) (toks : List Token) (hf : 2 ≤ f)
    (hs : headIsStar toks = false) :
    parse_multF f (Token.Number v h l :: toks) = .ok (toks, .Number v h l) := by
  obtain ⟨k, rfl⟩ := Nat.exists_eq_add_of_le' hf
  show parse_multF (k + 1 + 1) _ = _
  simp only [parse_multF, parse_primaryF]
  cases toks with
  | nil => rfl
  | cons hd tl =>
    cases hd <;> first
      | rfl
      | exact absurd hs (by simp [headIsStar])

/-- The `('+' | '-') term` loop of `parse_expr` folds an addition-level
chain from the left. -/
theorem parse_expr_loop_fold (ts : List AddTerm) : ∀ (f : Nat) (left : Expression),
    ts.length + 3 ≤ f →
    parse_expr_loopF f left (addTermToks ts) = .ok ([], addFold left ts) := by
  induction ts with
  | nil =>
    intro f left hf
    obtain ⟨k, rfl⟩ := Nat.exists_eq_add_of_le' hf
    rfl
  | cons t rest ih =>
    intro f left hf
    cases f with
    | zero => omega
    | succ g =>
      have hg : rest.length + 3 ≤ g := by
        simp only [List.length_cons] at hf; omega
      have hm := parse_mult_num g t.value t.valAt t.valLen (addTermToks rest) (by omega)
        (headIsStar_addTermToks rest)
      cases hbt : t.isPlus with
      | false =>
        simp only [addTermToks, addOpToken, hbt, Bool.false_eq_true, if_false,
          parse_expr_loopF, hm]
        rw [ih g (left.Binary (Token.Minus t.opAt)
          (Expression.Number t.value t.valAt t.valLen)) hg]
        simp [addFold, addOpToken, hbt]
      | true =>
        simp only [addTermToks, addOpToken, hbt, if_true, parse_expr_loopF, hm]
        rw [ih g (left.Binary (Token.Plus t.opAt)
          (Expression.Number t.value t.valAt t.valLen)) hg]
        simp [addFold, addOpToken, hbt]

/-! ## Claim theorems -/

/-- C1: the claim says code generation reports an "undefined variable"
error as a returned error value; the code instead calls
`self.variables.get(&name).unwrap()`, which aborts the process when the
name is absent.  Generating code for `[Return(Variable{"x"})]` with no
prior definition of `x` aborts. -/
theorem compile_undefined_variable_aborts :
    compile_statements Backend.init [Statement.Return (Expression.Variable "x" 0)] =
      .panicked := rfl

/-- C2: parsing the token sequence of "2 + 3 * 4" (for arbitrary values
and source positions) yields `Binary(a, +, Binary(b, *, c))`:
multiplication binds tighter than addition, and the left-associated
grouping `Binary(Binary(2,+,3), *, 4)` is never produced. -/
theorem parse_expr_precedence :
    (∀ (a ha la b hb lb c hc lc hp hs : Nat),
      parse_expr [Token.Number a ha la, Token.Plus hp, Token.Number b hb lb,
        Token.Star hs, Token.Number c hc lc] =
      .ok ([], Expression.Binary (.Number a ha la) (.Plus hp)
        (.Binary (.Number b hb lb) (.Star hs) (.Number c hc lc)))) ∧
    parse_expr [Token.Number 2 0 1, Token.Plus 2, Token.Number 3 4 1, Token.Star 6,
      Token.Number 4 8 1] ≠
      .ok ([], Expression.Binary (.Binary (.Number 2 0 1) (.Plus 2) (.Number 3 4 1))
        (.Star 6) (.Number 4 8 1)) := by
  constructor
  · intro a ha la b hb lb c hc lc hp hs
    rfl
  · intro h
    have hgood : parse_expr [Token.Number 2 0 1, Token.Plus 2, Token.Number 3 4 1,
        Token.Star 6, Token.Number 4 8 1] =
        .ok ([], Expression.Binary (.Number 2 0 1) (.Plus 2)
          (.Binary (.Number 3 4 1) (.Star 6) (.Number 4 8 1))) := rfl
    rw [hgood] at h
    simp at h

/-- C3: binary operators at the same precedence level are parsed
left-associatively: a number followed by any chain of `('+' | '-') NUMBER`
steps parses to the left fold of the chain, and in particular the token
sequence of "1 + 2 - 3" yields `Binary(Binary(1,+,2), -, 3)`. -/
theorem parse_expr_left_assoc :
    (∀ (a ha la : Nat) (ts : List AddTerm),
      parse_expr (Token.Number a ha la :: addTermToks ts) =
        .ok ([], addFold (Expression.Number a ha la) ts)) ∧
    parse_expr [Token.Number 1 0 1, Token.Plus 2, Token.Number 2 4 1, Token.Minus 6,
      Token.Number 3 8 1] =
      .ok ([], Expression.Binary (.Binary (.Number 1 0 1) (.Plus 2) (.Number 2 4 1))
        (.Minus 6) (.Number 3 8 1)) := by
  constructor
  · intro a ha la ts
    show parse_exprF (3 * (Token.Number a ha la :: addTermToks ts).length + 3) _ = _
    have hlen : 3 * (Token.Number a ha la :: addTermToks ts).length + 3 =
        (6 * ts.length + 5) + 1 := by
      simp [addTermToks_length]; ring
    rw [hlen]
    simp only [parse_exprF,
      parse_mult_num (6 * ts.length + 5) a ha la (addTermToks ts) (by omega)
        (headIsStar_addTermToks ts)]
    rw [parse_expr_loop_fold ts (6 * ts.length + 5) (.Number a ha la) (by omega)]
  · rfl

/-- C5 counterexample: the number-adjacent-to-letter error for "123abc"
carries only the optional file name, line 1 and column 1 — no span
length.  Lexing "12ab", whose offending digit run has length 2, produces
the identical error value, so the error cannot report the span's length
as 3. -/
theorem lex_number_letter_reports_no_length :
    lex_file (Source.new "123abc") = .err (.Number (.Letter none 1 1)) ∧
    lex_file (Source.new "12ab") = lex_file (Source.new "123abc") := by decide

/-- C5 (amended): lexing "123abc" fails with `NumberLexError::Letter` at
line 1, column 1 — the position of offset 0; the error reports no span
length. -/
theorem lex_number_letter_error_position :
    lex_file (Source.new "123abc") = .err (.Number (.Letter none 1 1)) := by decide

/-- C7 counterexample: on a buffer whose cursor is at the end
(`finished()` holds), `next()` returns none but does not leave the cursor
offset unchanged — it increments it. -/
theorem source_next_past_end_moves_cursor :
    (Source.mk ['a'] 1 none).finished = true ∧
    ((Source.mk ['a'] 1 none).next).1 = none ∧
    ¬ ((Source.mk ['a'] 1 none).next).2.offset = (Source.mk ['a'] 1 none).offset := by decide

/-- C7 (amended): calling `next()` on a finished buffer returns none and
increments the cursor offset by one; the buffer stays finished, so the
observable behavior of `peek`/`finished` is unchanged even though the
cursor moved. -/
theorem source_next_past_end (s : Source) (h : s.finished = true) :
    (s.next).1 = none ∧ (s.next).2.offset = s.offset + 1 ∧ (s.next).2.finished = true := by
  simp only [Source.finished, decide_eq_true_eq] at h
  refine ⟨?_, rfl, ?_⟩
  · exact List.getElem?_eq_none h
  · simp only [Source.next, Source.finished, decide_eq_true_eq]
    omega

/-- C7 witness: the amended statement at a concrete finished buffer. -/
theorem source_next_past_end_witness :
    (Source.mk ['a'] 1 none).finished = true ∧
    (((Source.mk ['a'] 1 none).next).1 = none ∧
      ((Source.mk ['a'] 1 none).next).2.offset = (Source.mk ['a'] 1 none).offset + 1 ∧
      ((Source.mk ['a'] 1 none).next).2.finished = true) :=
  ⟨by decide, source_next_past_end (Source.mk ['a'] 1 none) (by decide)⟩

/-- C8 counterexample: the diagnostic formatter takes the offending source
line text — not a file name — and its rendering for position (1, 2) begins
with "Error at line 1, column 2:", not with a `file:line:column` header
(here tested against the representative file name "main"). -/
theorem display_error_no_file_header :
    display_error "x = 1" (1, 2) 1 "msg" =
      "Error at line 1, column 2:\n    x = 1\n     ^^\nmsg\n" ∧
    ("main:1:2").data.isPrefixOf (display_error "x = 1" (1, 2) 1 "msg").data = false := by
  decide

/-- C8 (amended): for every source line, 1-based (line, column), caret
length and message, the formatter (a total function — it cannot fail)
renders a multi-line block beginning with an `Error at line L, column C:`
header and ending with the message. -/
theorem display_error_shape (line : String) (pos : Nat × Nat) (len : Nat) (message : String) :
    ∃ mid : String, display_error line pos len message =
      "Error at line " ++ toString pos.1 ++ ", column " ++ toString pos.2 ++ ":\n" ++
        (mid ++ (message ++ "\n")) :=
  ⟨("    " ++ line ++ "\n") ++ (repeatChar ' ' (pos.2 + 4 - 1) ++ "^" ++ repeatChar '^' len ++ "\n"),
   by simp [display_error, String.append_assoc]⟩

/-- C9: lexing is not total — on an input whose digit run denotes a value
exceeding `u64::MAX`, `parse::<u64>().unwrap()` aborts the process inside
`lex_number`, so `lex_file` neither returns a `Number` token nor a lexical
error. -/
theorem lex_file_overflow_aborts :
    lex_number (Source.new "99999999999999999999") = .panicked ∧
    lex_file (Source.new "99999999999999999999") = .panicked := by decide

/-! ## Position lookup (C6) -/

theorem head?_dropWhile_false {α : Type} (p : α → Bool) (l : List α) (x : α)
    (h : (l.dropWhile p).head? = some x) : p x = false := by
  induction l with
  | nil => simp [List.dropWhile] at h
  | cons a t ih =>
    rw [List.dropWhile_cons] at h
    by_cases hp : p a = true
    · rw [if_pos hp] at h
      exact ih h
    · rw [if_neg hp] at h
      simp only [List.head?_cons, Option.some.injEq] at h
      subst h
      exact Bool.eq_false_iff.mpr hp

/-- C6: for every offset not exceeding the buffer length, `get_position`
returns (line, column) with line = 1 + the number of newlines strictly
before the offset, and column = 1 + the number of characters between the
last newline before the offset (or the start of the buffer) and the
offset; both 1-based. -/
theorem get_position_spec (s : Source) (offset : Nat) (h : offset ≤ s.src.length) :
    ∃ a b : List Char,
      s.src.take offset = a ++ b ∧
      (∀ c ∈ b, ¬ c = '\n') ∧
      (a = [] ∨ a.getLast? = some '\n') ∧
      s.get_position offset =
        (((s.src.take offset).countP fun c => c == '\n') + 1, b.length + 1) := by
  refine ⟨((s.src.take offset).reverse.dropWhile fun c => c != '\n').reverse,
          ((s.src.take offset).reverse.takeWhile fun c => c != '\n').reverse, ?_, ?_, ?_, ?_⟩
  · conv_lhs => rw [← List.reverse_reverse (s.src.take offset),
      ← List.takeWhile_append_dropWhile (fun c => c != '\n') (s.src.take offset).reverse]
    rw [List.reverse_append]
  · intro c hc
    rw [List.mem_reverse] at hc
    have hp := List.mem_takeWhile_imp hc
    simpa using hp
  · rcases hdw : (s.src.take offset).reverse.dropWhile (fun c => c != '\n') with _ | ⟨x, xs⟩
    · left
      rfl
    · right
      rw [List.getLast?_reverse]
      have hx : ((s.src.take offset).reverse.dropWhile fun c => c != '\n').head? = some x := by
        rw [hdw]; rfl
      have hfalse := head?_dropWhile_false _ _ _ hx
      simp only [bne, Bool.not_eq_false'] at hfalse
      have hxn : x = '\n' := by simpa using hfalse
      rw [hxn]
      rfl
  · unfold Source.get_position
    simp only [Prod.mk.injEq]
    constructor
    · rw [List.countP_eq_length_filter]
    · rw [List.length_reverse]

/-- C6 witness: the specification instantiated on the buffer "ab\ncd" at
offset 4, whose position is line 2, column 2. -/
theorem get_position_spec_witness :
    4 ≤ (Source.new "ab\ncd").src.length ∧
    (∃ a b : List Char,
      (Source.new "ab\ncd").src.take 4 = a ++ b ∧
      (∀ c ∈ b, ¬ c = '\n') ∧
      (a = [] ∨ a.getLast? = some '\n') ∧
      (Source.new "ab\ncd").get_position 4 =
        ((((Source.new "ab\ncd").src.take 4).countP fun c => c == '\n') + 1, b.length + 1)) :=
  ⟨by decide, get_position_spec (Source.new "ab\ncd") 4 (by decide)⟩

/-! ## Trailing whitespace and the lexer loop (C4) -/

theorem ws_char_cases (c : Char) (h : c.isWhitespace = true) :
    c = ' ' ∨ c = '\t' ∨ c = '\r' ∨ c = '\n' := by
  simp only [Char.isWhitespace, Bool.or_eq_true, decide_eq_true_eq] at h
  tauto

theorem ws_false_of_digit (c : Char) (h : c.isDigit = true) : c.isWhitespace = false := by
  cases hw : c.isWhitespace
  · rfl
  · rcases ws_char_cases c hw with rfl | rfl | rfl | rfl <;> exact absurd h (by decide)

theorem ws_false_of_alpha_or_underscore (c : Char) (h : (c.isAlpha || c = '_') = true) :
    c.isWhitespace = false := by
  cases hw : c.isWhitespace
  · rfl
  · rcases ws_char_cases c hw with rfl | rfl | rfl | rfl <;> exact absurd h (by decide)

theorem ws_false_of_alphanum_or_underscore (c : Char) (h : (c.isAlphanum || c = '_') = true) :
    c.isWhitespace = false := by
  cases hw : c.isWhitespace
  · rfl
  · rcases ws_char_cases c hw with rfl | rfl | rfl | rfl <;> exact absurd h (by decide)

/-- Every character inside the maximal `p`-run starting at offset `n`
satisfies `p`. -/
theorem takeWhile_run_pred (p : Char → Bool) (l : List Char) (n j : Nat) (x : Char)
    (hj : j < ((l.drop n).takeWhile p).length) (hx : l[n + j]? = some x) : p x = true := by
  have h1 : (l.drop n)[j]? = some x := by rw [List.getElem?_drop]; exact hx
  have h2 : ((l.drop n).takeWhile p)[j]? = some x := by
    conv at h1 => rw [← List.takeWhile_append_dropWhile p (l.drop n)]
    rw [List.getElem?_append, if_pos hj] at h1
    exact h1
  obtain ⟨hlt, he⟩ := List.getElem?_eq_some.mp h2
  exact List.mem_takeWhile_imp (he ▸ List.getElem_mem hlt)

/-- The maximal `p`-run starting at offset `n` fits in the rest of the
list. -/
theorem takeWhile_len_le (p : Char → Bool) (l : List Char) (n : Nat) :
    ((l.drop n).takeWhile p).length ≤ l.length - n := by
  have hs : ((l.drop n).takeWhile p).Sublist (l.drop n) := List.takeWhile_sublist p
  have := hs.length_le
  rw [List.length_drop] at this
  exact this

/-- A `p`-run is nonempty when the head satisfies `p`. -/
theorem takeWhile_pos_of_head (p : Char → Bool) (d : List Char) (c : Char)
    (h0 : d.head? = some c) (hp : p c = true) : 1 ≤ (d.takeWhile p).length := by
  cases d with
  | nil => simp at h0
  | cons a t =>
    simp only [List.head?_cons, Option.some.injEq] at h0
    subst h0
    rw [List.takeWhile_cons, if_pos hp, List.length_cons]
    omega

/-- The maximal `p`-run starting at offset `n` is nonempty when the
character at `n` satisfies `p`. -/
theorem takeWhile_run_pos (p : Char → Bool) (l : List Char) (n : Nat) (c : Char)
    (hc : l[n]? = some c) (hp : p c = true) : 1 ≤ ((l.drop n).takeWhile p).length := by
  have h0 : (l.drop n).head? = some c := by
    rw [List.head?_eq_getElem?, List.getElem?_drop]
    simpa using hc
  exact takeWhile_pos_of_head p (l.drop n) c h0 hp

/-- The element right after the maximal `p`-prefix is the head of the
`p`-dropped remainder. -/
theorem getElem?_length_takeWhile (p : Char → Bool) (d : List Char) :
    d[(d.takeWhile p).length]? = (d.dropWhile p).head? := by
  induction d with
  | nil => rfl
  | cons a t ih =>
    rw [List.takeWhile_cons, List.dropWhile_cons]
    by_cases hp : p a = true
    · rw [if_pos hp, if_pos hp, List.length_cons, List.getElem?_cons_succ]
      exact ih
    · rw [if_neg hp, if_neg hp]
      simp

/-- If the last character of the buffer is whitespace but every character
of the half-open interval `[a, b)` is non-whitespace, the interval stops
strictly before the end of the buffer. -/
theorem last_ws_run_lt (l : List Char) (c : Char) (hl : l.getLast? = some c)
    (hws : c.isWhitespace = true) (a b : Nat) (hb : b ≤ l.length) (hab : a < b)
    (hnw : ∀ j x, a ≤ j → j < b → l[j]? = some x → x.isWhitespace = false) :
    b < l.length := by
  by_contra hge
  have hbl : b = l.length := by omega
  have hlast : l[l.length - 1]? = some c := by
    rw [← List.getLast?_eq_getElem?]; exact hl
  have hfalse := hnw (l.length - 1) c (by omega) (by omega) hlast
  rw [hfalse] at hws
  exact Bool.noConfusion hws

theorem skip_whitespace_le (s : Source) (h : s.offset ≤ s.src.length) :
    (s.skip_whitespace).offset ≤ s.src.length := by
  have := takeWhile_len_le Char.isWhitespace s.src s.offset
  show s.offset + _ ≤ _
  omega

/-- After `skip_whitespace`, the character under the cursor (if any) is
not whitespace. -/
theorem skip_whitespace_peek_not_ws (s : Source) (c : Char)
    (h : (s.skip_whitespace).peek = some c) : c.isWhitespace = false := by
  replace h : s.src[s.offset +
      ((s.src.drop s.offset).takeWhile Char.isWhitespace).length]? = some c := h
  rw [← List.getElem?_drop, getElem?_length_takeWhile] at h
  exact head?_dropWhile_false _ _ _ h

/-- `consTok` never yields a success when its continuation never does. -/
theorem consTok_ne_ok (t : Token) (r : Outcome LexerError (List Token))
    (h : ∀ ts, r ≠ .ok ts) (ts : List Token) : consTok t r ≠ .ok ts := by
  intro hc
  cases r with
  | ok x => exact h x rfl
  | err e => exact Outcome.noConfusion hc
  | panicked => exact Outcome.noConfusion hc

/-- Inversion of the success case of `lex_number`: the advanced buffer is
the old one with the cursor moved past the maximal digit run. -/
theorem lex_number_ok_shape (s s1 : Source) (t : Token)
    (h : lex_number s = .ok (s1, t)) :
    s1 = ⟨s.src, s.offset + ((s.src.drop s.offset).takeWhile Char.isDigit).length,
      s.path⟩ := by
  unfold lex_number at h
  simp only at h
  split at h
  · split at h
    · exact Outcome.noConfusion h
    · split at h
      · obtain ⟨h1, -⟩ := Prod.mk.injEq .. ▸ Outcome.ok.inj h
        exact h1.symm
      · exact Outcome.noConfusion h
  · split at h
    · obtain ⟨h1, -⟩ := Prod.mk.injEq .. ▸ Outcome.ok.inj h
      exact h1.symm
    · exact Outcome.noConfusion h

/-- One lexer iteration on a buffer whose text ends in whitespace never
succeeds, provided the continuation never succeeds from any strictly
advanced in-range cursor. -/
theorem lex_iter_ne_ok (recur : Source → Outcome LexerError (List Token)) (s0 : Source)
    (c : Char) (hlast : s0.src.getLast? = some c) (hws : c.isWhitespace = true)
    (hpeek_nws : ∀ c0, s0.peek = some c0 → c0.isWhitespace = false)
    (hrec : ∀ s1 : Source, s1.src = s0.src → s1.offset < s1.src.length →
      ∀ ts, recur s1 ≠ .ok ts)
    (toks : List Token) : lex_iter recur s0 ≠ .ok toks := by
  intro h
  unfold lex_iter at h
  split at h
  · rename_i c0 hpk
    have hc0ws := hpeek_nws c0 hpk
    have hc0 : s0.src[s0.offset]? = some c0 := hpk
    have hc0lt : s0.offset < s0.src.length := (List.getElem?_eq_some.mp hc0).1
    have hnext_lt : (s0.next).2.offset < (s0.next).2.src.length := by
      show s0.offset + 1 < s0.src.length
      refine last_ws_run_lt s0.src c hlast hws s0.offset (s0.offset + 1) hc0lt
        (Nat.lt_succ_self _) ?_
      intro j x hj1 hj2 hx
      have hj : j = s0.offset := by omega
      subst hj
      rw [hc0] at hx
      rw [← Option.some.inj hx]
      exact hc0ws
    have hpunct : ∀ tok : Token, consTok tok (recur (s0.next).2) ≠ .ok toks := by
      intro tok
      exact consTok_ne_ok _ _ (hrec (s0.next).2 rfl hnext_lt) toks
    by_cases hd : c0.isDigit = true
    · rw [if_pos hd] at h
      split at h
      · rename_i s1 t hln
        have hs1 := lex_number_ok_shape s0 s1 t hln
        subst hs1
        have hrun1 := takeWhile_run_pos Char.isDigit s0.src s0.offset c0 hc0 hd
        have hrunle := takeWhile_len_le Char.isDigit s0.src s0.offset
        have hlt : (⟨s0.src,
            s0.offset + ((s0.src.drop s0.offset).takeWhile Char.isDigit).length,
            s0.path⟩ : Source).offset <
            (⟨s0.src,
              s0.offset + ((s0.src.drop s0.offset).takeWhile Char.isDigit).length,
              s0.path⟩ : Source).src.length := by
          show s0.offset + ((s0.src.drop s0.offset).takeWhile Char.isDigit).length <
            s0.src.length
          refine last_ws_run_lt s0.src c hlast hws s0.offset _ (by omega) (by omega) ?_
          intro j x hj1 hj2 hx
          refine ws_false_of_digit x (takeWhile_run_pred Char.isDigit s0.src s0.offset
            (j - s0.offset) x (by omega) ?_)
          have hadd : s0.offset + (j - s0.offset) = j := by omega
          rw [hadd]
          exact hx
        exact consTok_ne_ok _ _ (hrec ⟨s0.src,
          s0.offset + ((s0.src.drop s0.offset).takeWhile Char.isDigit).length,
          s0.path⟩ rfl hlt) toks h
      · exact Outcome.noConfusion h
      · exact Outcome.noConfusion h
    rw [if_neg hd] at h
    by_cases hc1 : c0 = '+'
    · rw [if_pos hc1] at h; exact hpunct _ h
    rw [if_neg hc1] at h
    by_cases hc2 : c0 = '-'
    · rw [if_pos hc2] at h; exact hpunct _ h
    rw [if_neg hc2] at h
    by_cases hc3 : c0 = '*'
    · rw [if_pos hc3] at h; exact hpunct _ h
    rw [if_neg hc3] at h
    by_cases hc4 : c0 = '='
    · rw [if_pos hc4] at h; exact hpunct _ h
    rw [if_neg hc4] at h
    by_cases hc5 : c0 = ';'
    · rw [if_pos hc5] at h; exact hpunct _ h
    rw [if_neg hc5] at h
    by_cases hc6 : c0 = '('
    · rw [if_pos hc6] at h; exact hpunct _ h
    rw [if_neg hc6] at h
    by_cases hc7 : c0 = ')'
    · rw [if_pos hc7] at h; exact hpunct _ h
    rw [if_neg hc7] at h
    by_cases hc8 : c0 = '{'
    · rw [if_pos hc8] at h; exact hpunct _ h
    rw [if_neg hc8] at h
    by_cases hc9 : c0 = '}'
    · rw [if_pos hc9] at h; exact hpunct _ h
    rw [if_neg hc9] at h
    by_cases hid : (c0.isAlpha || c0 = '_') = true
    · rw [if_pos hid] at h
      have hlt : (lex_ident s0).1.offset < (lex_ident s0).1.src.length := by
        show s0.offset + 1 +
          ((s0.src.drop (s0.offset + 1)).takeWhile fun c => c.isAlphanum || c = '_').length <
          s0.src.length
        have hrunle := takeWhile_len_le (fun c => c.isAlphanum || c = '_') s0.src
          (s0.offset + 1)
        refine last_ws_run_lt s0.src c hlast hws s0.offset _ (by omega) (by omega) ?_
        intro j x hj1 hj2 hx
        by_cases hj0 : j = s0.offset
        · subst hj0
          rw [hc0] at hx
          rw [← Option.some.inj hx]
          exact ws_false_of_alpha_or_underscore c0 hid
        · refine ws_false_of_alphanum_or_underscore x
            (takeWhile_run_pred (fun c => c.isAlphanum || c = '_') s0.src (s0.offset + 1)
              (j - (s0.offset + 1)) x (by omega) ?_)
          have hadd : s0.offset + 1 + (j - (s0.offset + 1)) = j := by omega
          rw [hadd]
          exact hx
      exact consTok_ne_ok _ _ (hrec (lex_ident s0).1 rfl hlt) toks h
    rw [if_neg hid] at h
    exact Outcome.noConfusion h
  · exact Outcome.noConfusion h

/-- The lexer loop never succeeds on a buffer whose text ends in
whitespace and whose cursor is strictly inside the text. -/
theorem lex_fileF_trailing_ws (c : Char) (hws : c.isWhitespace = true) :
    ∀ (f : Nat) (s : Source), s.src.getLast? = some c → s.offset < s.src.length →
      ∀ toks, lex_fileF f s ≠ .ok toks := by
  intro f
  induction f with
  | zero =>
    intro s _ _ toks h
    exact Outcome.noConfusion h
  | succ g ih =>
    intro s hlast hoff toks h
    have hfin : ¬ (s.finished = true) := by
      simp only [Source.finished, decide_eq_true_eq]
      omega
    rw [lex_fileF, if_neg hfin] at h
    refine lex_iter_ne_ok (lex_fileF g) s.skip_whitespace c hlast hws
      (skip_whitespace_peek_not_ws s) ?_ toks h
    intro s1 hsrc hlt ts
    exact ih s1 (by rw [hsrc]; exact hlast) hlt ts

/-- C4 counterexample: the input "1 " — a valid token followed by trailing
whitespace — does not lex to `[Number{1,0,1}]`; `lex_file` fails with
`UnexpectedEOF` at line 1, column 3 instead. -/
theorem lex_trailing_ws_counterexample :
    lex_file (Source.new "1 ") = .err (.UnexpectedEOF none 1 3) ∧
    lex_file (Source.new "1 ") ≠ .ok [Token.Number 1 0 1] := by
  constructor
  · decide
  · decide

/-- C4 (amended): lexing never succeeds on an input whose final character
is whitespace — the loop re-enters while the buffer is unfinished, skips
the whitespace, finds no next character and fails — so an input of valid
tokens followed by trailing whitespace (including a whitespace-only
input) yields an `UnexpectedEOF` error, not the tokens preceding the
whitespace. -/
theorem lex_trailing_ws_never_succeeds (src : List Char) (c : Char)
    (hlast : src.getLast? = some c) (hws : c.isWhitespace = true) (toks : List Token) :
    lex_file ⟨src, 0, none⟩ ≠ .ok toks := by
  have hlen : 0 < src.length := by
    cases src with
    | nil => simp at hlast
    | cons a t => simp
  exact lex_fileF_trailing_ws c hws _ ⟨src, 0, none⟩ hlast hlen toks

/-- C4 witness: the amended statement applied to the whitespace-only
input " ". -/
theorem lex_trailing_ws_witness :
    " ".data.getLast? = some ' ' ∧ ' '.isWhitespace = true ∧
      lex_file ⟨" ".data, 0, none⟩ ≠ .ok [] :=
  ⟨by decide, by decide, lex_trailing_ws_never_succeeds " ".data ' ' (by decide) (by decide) []⟩

/-! ## Full consumption of the token sequence by parse (C10) -/

/-- The expression parsers only ever consume a prefix: whatever tokens
they return are a suffix of their input. -/
theorem parser_suffix : ∀ f : Nat,
    (∀ toks r e, parse_primaryF f toks = .ok (r, e) → ∃ p, toks = p ++ r) ∧
    (∀ toks r e, parse_multF f toks = .ok (r, e) → ∃ p, toks = p ++ r) ∧
    (∀ left toks r e, parse_mult_loopF f left toks = .ok (r, e) → ∃ p, toks = p ++ r) ∧
    (∀ toks r e, parse_exprF f toks = .ok (r, e) → ∃ p, toks = p ++ r) ∧
    (∀ left toks r e, parse_expr_loopF f left toks = .ok (r, e) → ∃ p, toks = p ++ r) := by
  intro f
  induction f with
  | zero =>
    refine ⟨?_, ?_, ?_, ?_, ?_⟩
    · intro toks r e h; exact Except.noConfusion h
    · intro toks r e h; exact Except.noConfusion h
    · intro left toks r e h; exact Except.noConfusion h
    · intro toks r e h; exact Except.noConfusion h
    · intro left toks r e h; exact Except.noConfusion h
  | succ g ih =>
    obtain ⟨ihp, ihm, ihml, ihe, ihel⟩ := ih
    refine ⟨?_, ?_, ?_, ?_, ?_⟩
    · intro toks r e h
      simp only [parse_primaryF] at h
      split at h
      · rename_i v hh l rest
        obtain ⟨h1, h2⟩ := Prod.mk.injEq .. ▸ Except.ok.inj h
        exact ⟨[Token.Number v hh l], by rw [h1]; rfl⟩
      · rename_i name hh rest
        obtain ⟨h1, h2⟩ := Prod.mk.injEq .. ▸ Except.ok.inj h
        exact ⟨[Token.Ident name hh], by rw [h1]; rfl⟩
      · rename_i hh rest
        split at h
        · exact Except.noConfusion h
        · rename_i ts2 e2 heq1
          split at h
          · rename_i hcp ts3
            obtain ⟨h1, h2⟩ := Prod.mk.injEq .. ▸ Except.ok.inj h
            obtain ⟨p1, hp1⟩ := ihe rest _ _ heq1
            refine ⟨Token.OpenParen hh :: p1 ++ [Token.CloseParen hcp], ?_⟩
            rw [← h1, hp1]
            simp [List.append_assoc]
          · exact Except.noConfusion h
          · exact Except.noConfusion h
      · exact Except.noConfusion h
      · exact Except.noConfusion h
    · intro toks r e h
      simp only [parse_multF] at h
      split at h
      · exact Except.noConfusion h
      · rename_i ts left heq
        obtain ⟨p1, hp1⟩ := ihp toks ts left heq
        obtain ⟨p2, hp2⟩ := ihml left ts r e h
        exact ⟨p1 ++ p2, by rw [hp1, hp2, List.append_assoc]⟩
    · intro left toks r e h
      simp only [parse_mult_loopF] at h
      split at h
      · rename_i hh rest
        split at h
        · exact Except.noConfusion h
        · rename_i ts right heq
          obtain ⟨p1, hp1⟩ := ihp rest ts right heq
          obtain ⟨p2, hp2⟩ := ihml _ ts r e h
          refine ⟨Token.Star hh :: p1 ++ p2, ?_⟩
          rw [hp1, hp2]
          simp [List.append_assoc]
      all_goals
        obtain ⟨h1, h2⟩ := Prod.mk.injEq .. ▸ Except.ok.inj h
        exact ⟨[], by rw [h1]; simp⟩
    · intro toks r e h
      simp only [parse_exprF] at h
      split at h
      · exact Except.noConfusion h
      · rename_i ts left heq
        obtain ⟨p1, hp1⟩ := ihm toks ts left heq
        obtain ⟨p2, hp2⟩ := ihel left ts r e h
        exact ⟨p1 ++ p2, by rw [hp1, hp2, List.append_assoc]⟩
    · intro left toks r e h
      simp only [parse_expr_loopF] at h
      split at h
      · rename_i hh rest
        split at h
        · exact Except.noConfusion h
        · rename_i ts right heq
          obtain ⟨p1, hp1⟩ := ihm rest ts right heq
          obtain ⟨p2, hp2⟩ := ihel _ ts r e h
          refine ⟨Token.Plus hh :: p1 ++ p2, ?_⟩
          rw [hp1, hp2]
          simp [List.append_assoc]
      · rename_i hh rest
        split at h
        · exact Except.noConfusion h
        · rename_i ts right heq
          obtain ⟨p1, hp1⟩ := ihm rest ts right heq
          obtain ⟨p2, hp2⟩ := ihel _ ts r e h
          refine ⟨Token.Minus hh :: p1 ++ p2, ?_⟩
          rw [hp1, hp2]
          simp [List.append_assoc]
      all_goals
        obtain ⟨h1, h2⟩ := Prod.mk.injEq .. ▸ Except.ok.inj h
        exact ⟨[], by rw [h1]; simp⟩

/-- `parse_expr` returns a suffix of its input. -/
theorem parse_expr_suffix (toks r : List Token) (e : Expression)
    (h : parse_expr toks = .ok (r, e)) : ∃ p, toks = p ++ r :=
  (parser_suffix (3 * toks.length + 3)).2.2.2.1 toks r e h

/-- A successful run of the statement loop decomposes its whole input
into one nonempty token segment per parsed statement. -/
theorem parseF_segments : ∀ (f : Nat) (toks : List Token) (stmts : List Statement),
    parseF f toks = .ok stmts →
    ∃ segs : List (List Token), toks = segs.flatten ∧ segs.length = stmts.length ∧
      ∀ seg ∈ segs, seg ≠ [] := by
  intro f
  induction f with
  | zero => intro toks stmts h; exact Except.noConfusion h
  | succ g ih =>
    intro toks stmts h
    simp only [parseF] at h
    by_cases hemp : toks.isEmpty
    · rw [if_pos hemp] at h
      obtain rfl := Except.ok.inj h
      have htoks : toks = [] := List.isEmpty_iff.mp hemp
      exact ⟨[], by simp [htoks], rfl, by simp⟩
    · rw [if_neg hemp] at h
      split at h
      · rename_i hh rest
        split at h
        · exact Except.noConfusion h
        · rename_i ts e2 heq1
          split at h
          · rename_i hs ts2
            split at h
            · rename_i stmts2 heq2
              obtain rfl := Except.ok.inj h
              obtain ⟨p1, hp1⟩ := parse_expr_suffix rest _ _ heq1
              obtain ⟨segs2, hflat, hlen, hne⟩ := ih ts2 stmts2 heq2
              refine ⟨(Token.Return hh :: p1 ++ [Token.Semicolon hs]) :: segs2, ?_, ?_, ?_⟩
              · rw [List.flatten_cons, ← hflat, hp1]
                simp [List.append_assoc]
              · simp [hlen]
              · intro seg hseg
                rcases List.mem_cons.mp hseg with rfl | hmem
                · simp
                · exact hne seg hmem
            · exact Except.noConfusion h
          · exact Except.noConfusion h
          · exact Except.noConfusion h
      · rename_i hh rest
        split at h
        · rename_i name hi rest2
          split at h
          · rename_i he2 rest3
            split at h
            · exact Except.noConfusion h
            · rename_i ts e2 heq1
              split at h
              · rename_i hs ts2
                split at h
                · rename_i stmts2 heq2
                  obtain rfl := Except.ok.inj h
                  obtain ⟨p1, hp1⟩ := parse_expr_suffix rest3 _ _ heq1
                  obtain ⟨segs2, hflat, hlen, hne⟩ := ih ts2 stmts2 heq2
                  refine ⟨(Token.Var hh :: Token.Ident name hi :: Token.Equal he2 ::
                    p1 ++ [Token.Semicolon hs]) :: segs2, ?_, ?_, ?_⟩
                  · rw [List.flatten_cons, ← hflat, hp1]
                    simp [List.append_assoc]
                  · simp [hlen]
                  · intro seg hseg
                    rcases List.mem_cons.mp hseg with rfl | hmem
                    · simp
                    · exact hne seg hmem
                · exact Except.noConfusion h
              · exact Except.noConfusion h
              · exact Except.noConfusion h
          · exact Except.noConfusion h
          · exact Except.noConfusion h
        · exact Except.noConfusion h
        · exact Except.noConfusion h
      · exact Except.noConfusion h
      · exact Except.noConfusion h

/-- C10: whenever `parse` returns successfully, the entire token sequence
has been consumed — the input splits into exactly one nonempty segment of
tokens per parsed statement, so no unconsumed tokens remain and every
token contributed to some statement. -/
theorem parse_consumes_all (toks : List Token) (stmts : List Statement)
    (h : parse toks = .ok stmts) :
    ∃ segs : List (List Token), toks = segs.flatten ∧ segs.length = stmts.length ∧
      ∀ seg ∈ segs, seg ≠ [] :=
  parseF_segments (toks.length + 1) toks stmts h

/-- C10 witness: the decomposition on the token sequence of "return 0;". -/
theorem parse_consumes_all_witness :
    parse [Token.Return 0, Token.Number 0 7 1, Token.Semicolon 8] =
      .ok [Statement.Return (Expression.Number 0 7 1)] ∧
    ∃ segs : List (List Token),
      [Token.Return 0, Token.Number 0 7 1, Token.Semicolon 8] = segs.flatten ∧
      segs.length = [Statement.Return (Expression.Number 0 7 1)].length ∧
      ∀ seg ∈ segs, seg ≠ [] :=
  ⟨by rfl, parse_consumes_all [Token.Return 0, Token.Number 0 7 1, Token.Semicolon 8]
    [Statement.Return (Expression.Number 0 7 1)] (by rfl)⟩

end Jizzle
